import Mathlib

/-!
Verification of the corpus-build pipeline (`main.py`).

The Python source is shallowly embedded: pure helper functions become Lean
functions over `List`/`String`; the external collaborators (the network
database, the tokenizer, the datetime library, file I/O) are parameters or
explicit outcome data; the sqlite row store becomes an explicit record of
table contents, with each `commit()` of the source a distinct visible state;
the orchestrator's per-domain loop with its `try ... except Exception:
continue` becomes a fold whose step function returns the state at the point
an exception would have been raised together with a success flag.
-/

/- ===== Tokenizer adapter (`_parse_tokens`, main.py lines 197-213) ===== -/

/-- Python `str.split(sep)` for a one-character separator: splits the
character list on every occurrence of `c`, keeping empty segments
(`"a\n\nb".split("\n") == ["a", "", "b"]`, `"".split("\n") == [""]`). -/
def splitChar (c : Char) : List Char → List (List Char)
  | [] => [[]]
  | x :: xs =>
    let rest := splitChar c xs
    if x = c then [] :: rest
    else
      match rest with
      | [] => [[x]]
      | y :: ys => (x :: y) :: ys

/-- `fulltext.split("\n")` from `_parse_tokens` (main.py line 199). -/
def pySplitLines (s : String) : List String :=
  (splitChar (Char.ofNat 10) s.toList).map List.asString

/-- A concrete "word tokenizer" used to check the spec's worked example:
splits a paragraph on spaces and drops empty pieces.  The production
tokenizer (`nb_tokenizer.tokenize`) is external, so theorems quantify over
an arbitrary `tokenize : String → List String`. -/
def wordTokenize (s : String) : List String :=
  ((splitChar (Char.ofNat 32) s.toList).map List.asString).filter (fun w => ¬ (w = ""))

/-- `_TokenParseResult` (main.py lines 52-56). -/
structure TokenParseResult where
  token : String
  sequence_number : Nat
  paragraph_number : Nat
deriving Repr, DecidableEq

/-- The inner `for token in tokens` loop of `_parse_tokens` (main.py lines
203-211): one `TokenParseResult` per token, consuming consecutive global
sequence numbers starting at `seq`, all tagged with paragraph `para`. -/
def paraTokens (para : Nat) : Nat → List String → List TokenParseResult
  | _, [] => []
  | seq, t :: ts => ⟨t, seq, para⟩ :: paraTokens para (seq + 1) ts

/-- The outer `for paragraph_number, paragraph in enumerate(paragraphs)`
loop of `_parse_tokens` (main.py lines 201-211), carrying the running
paragraph index and global sequence number. -/
def parseTokensGo (tokenize : String → List String) : Nat → Nat → List String → List TokenParseResult
  | _, _, [] => []
  | para, seq, p :: ps =>
    paraTokens para seq (tokenize p) ++
      parseTokensGo tokenize (para + 1) (seq + (tokenize p).length) ps

/-- `_parse_tokens` (main.py lines 197-213). -/
def parseTokens (tokenize : String → List String) (fulltext : String) : List TokenParseResult :=
  parseTokensGo tokenize 0 0 (pySplitLines fulltext)

/- ===== Deduplicator (`_remove_duplicates_and_empty_strings`, lines 151-158) ===== -/

/-- The body of the nested loops of `_remove_duplicates_and_empty_strings`
(main.py lines 154-157): `if not item == "": if item not in
filtered_results: filtered_results.append(item)`. -/
def dedupStep (filtered_results : List String) (item : String) : List String :=
  if ¬ (item = "") then
    if ¬ (item ∈ filtered_results) then filtered_results ++ [item] else filtered_results
  else filtered_results

/-- `_remove_duplicates_and_empty_strings` (main.py lines 151-158): the
outer loop ranges over the fetched rows (tuples), the inner loop over the
items of each row, accumulating `filtered_results` from `[]`. -/
def removeDuplicatesAndEmptyStrings (results : List (List String)) : List String :=
  results.foldl (fun filtered_results entry => entry.foldl dedupStep filtered_results) []

/-- Modelled from the spec's words (§4.2): `dedupe_texts` keeps only the
first occurrence of each distinct non-empty string, in source order,
discarding empty strings entirely.  Stated over the flattened sequence of
row items, to be compared with `removeDuplicatesAndEmptyStrings`. -/
def dedupeTextsSpec (l : List String) : List String :=
  l.foldl (fun acc x => if x = "" then acc else if x ∈ acc then acc else acc ++ [x]) []

/- ===== Source Reader post-filter (`_fetch_fulltext_hash_and_metadata`, lines 172-194) ===== -/

/-- One row of the `SELECT DISTINCT ON (fulltext_hash, target_uri)
record_id, warcpath, fulltext_hash, target_uri, date ...` query (main.py
line 177).  SQL columns may be NULL; the source only ever None-checks
column 0, and column 2 flows into the `hash` field unchecked, so those two
are modelled as `Option String`.  Rows always have exactly five columns
here, so the `len(result) != 5` guard of lines 182-185 cannot fire. -/
structure WarcRow where
  record_id : Option String
  warcpath : String
  fulltext_hash : Option String
  target_uri : String
  date : String
deriving Repr, DecidableEq

/-- `_FulltextMetadata` (main.py lines 35-41). -/
structure FulltextMetadata where
  record_id : String
  warcpath : String
  hash : Option String
  uri : String
  timestamp : String
deriving Repr, DecidableEq

/-- The Python filtering loop of `_fetch_fulltext_hash_and_metadata`
(main.py lines 180-194).  `formatDate` stands for the external
`datetime.fromisoformat(...).strftime("%Y%m%d")` normalisation of line
188-189.  Note the source tests `result[0]` (the record id), both for the
None-check and for membership among the hashes of already kept rows. -/
def fetchFulltextHashAndMetadata (formatDate : String → String)
    (all_results : List WarcRow) : List FulltextMetadata :=
  all_results.foldl
    (fun filtered_results result =>
      match result.record_id with
      | none => filtered_results
      | some rid =>
        if ¬ (some rid ∈ filtered_results.map (fun metadata => metadata.hash)) then
          filtered_results ++
            [⟨rid, result.warcpath, result.fulltext_hash, result.target_uri,
              formatDate result.date⟩]
        else filtered_results)
    []

/- ===== Row store (`_create_local_db`, `_write_to_local_database`, `_rename_db`) ===== -/

/-- The 11-column `metadata` table row (main.py line 129), in the order the
tuple `tuple(fulltext_dict.values())[:-1]` is built at lines 274-286:
dhlabid, hash, title, domain, responsible_editor, place, county,
record_id, warcpath, timestamp, uri. -/
structure MetadataTuple where
  dhlabid : Int
  hash : Option String
  title : String
  domain : String
  responsible_editor : Bool
  place : String
  county : String
  record_id : String
  warcpath : String
  timestamp : String
  uri : String
deriving Repr, DecidableEq

/-- One row of the `ft` token table as inserted at line 138:
(urn, word, seq, para). -/
def FtRow : Type := Int × String × Nat × Nat
deriving DecidableEq, Repr

/-- The visible contents of the sqlite row store created by
`_create_local_db` (main.py lines 121-129): the `urns`, `ft` and
`metadata` tables, each as its list of rows in insertion order. -/
structure DB where
  urns : List (Int × String)
  ft : List FtRow
  metadata : List MetadataTuple
deriving Repr, DecidableEq

/-- The freshly created, empty row store. -/
def dbEmpty : DB := ⟨[], [], []⟩

/-- First committed statement of `_write_to_local_database` (main.py lines
134-135): `INSERT INTO metadata VALUES (...)`, then `dbcon.commit()`. -/
def writeCommit1 (db : DB) (m : MetadataTuple) : DB :=
  { db with metadata := db.metadata ++ [m] }

/-- Second committed statement (main.py lines 136-137): `INSERT INTO urns
VALUES (metadata_tuple[0], f"{metadata_tuple[8]}#{metadata_tuple[7]}")`,
i.e. the dhlabid together with `warcpath#record_id`, then commit. -/
def writeCommit2 (db : DB) (m : MetadataTuple) : DB :=
  { db with urns := db.urns ++ [(m.dhlabid, m.warcpath ++ "#" ++ m.record_id)] }

/-- Third committed statement (main.py lines 138-139): `executemany` of the
token tuples into `ft`, then commit. -/
def writeCommit3 (db : DB) (token_tuples : List FtRow) : DB :=
  { db with ft := db.ft ++ token_tuples }

/-- `_write_to_local_database` (main.py lines 131-139) run to completion:
the three committed statements in source order. -/
def writeToLocalDatabase (db : DB) (token_tuples : List FtRow) (m : MetadataTuple) : DB :=
  writeCommit3 (writeCommit2 (writeCommit1 db m) m) token_tuples

/-- Every database state that is committed (hence durably visible) at some
point during one `_write_to_local_database` call: before the call, after
each of the three `dbcon.commit()` calls. -/
def writeCommittedStates (db : DB) (token_tuples : List FtRow) (m : MetadataTuple) : List DB :=
  [db, writeCommit1 db m, writeCommit2 (writeCommit1 db m) m,
    writeToLocalDatabase db token_tuples m]

/-- SQL `min` aggregate: NULL (`none`) on an empty table. -/
def sqlMin (l : List Int) : Option Int :=
  l.foldl (fun acc x => match acc with | none => some x | some m => some (min m x)) none

/-- SQL `max` aggregate: NULL (`none`) on an empty table. -/
def sqlMax (l : List Int) : Option Int :=
  l.foldl (fun acc x => match acc with | none => some x | some m => some (max m x)) none

/-- The `urn` column of the `urns` table. -/
def urnIds (db : DB) : List Int := db.urns.map (fun r => r.1)

/-- The `dhlabid` column of the `metadata` table. -/
def metaIds (db : DB) : List Int := db.metadata.map (fun m => m.dhlabid)

/-- `_rename_db` (main.py lines 141-149): `SELECT min(urn), max(urn) FROM
urns` and embed the pair in the new file name.  Modelled as the pair of
aggregates the file name is built from. -/
def renameDb (db : DB) : Option Int × Option Int :=
  (sqlMin (urnIds db), sqlMax (urnIds db))

/- ===== Orchestrator (`_main`, main.py lines 216-306) ===== -/

/-- `_DHlabIdStatus` (main.py lines 20-23). -/
structure DHlabIdStatus where
  is_disabled : Bool
  starting_value : Int
deriving Repr, DecidableEq

/-- Where, if anywhere, one iteration of the inner `for full_text in ...`
loop (main.py lines 261-301) raises.  These are the external failure
points of one record emission: the text fetch for the record raising, the
jsonlines append raising, or one of the three row-store inserts raising.
`ok` is the iteration running to line 301. -/
inductive EmitOutcome
  | fetchTextsRaise
  | logRaise
  | metaInsertRaise
  | urnInsertRaise
  | ftInsertRaise
  | ok
deriving Repr, DecidableEq

/-- One (fulltext_metadata, full_text) pair the inner loops would iterate
over, together with the outcome the external world gives its emission. -/
structure EmitJob where
  fm : FulltextMetadata
  full_text : String
  outcome : EmitOutcome
deriving Repr, DecidableEq

/-- One entry of `filter_dict["publications"]` (the per-domain job), plus
the behaviour of the external source for this domain: whether
`_fetch_fulltext_hash_and_metadata` raises, and the flattened sequence of
record emissions it otherwise leads to.  A missing `have-responsible-editor`
key raises just like a false one, so both are `responsible_editor = false`. -/
structure DomainJob where
  domain : String
  title : String
  responsible_editor : Bool
  place : String
  county : String
  fetchOk : Bool
  emits : List EmitJob
deriving Repr, DecidableEq

/-- The run-scoped mutable state of `_main`: the `dhlabid_value` counter,
the row store, the per-domain jsonlines record log (each entry the written
dict: the metadata fields plus the raw text), and — for speaking about the
run — the list of dhlabids of the records whose iteration reached line 301
(`dhlabid_value += 1`), i.e. the successfully emitted records. -/
structure RunState where
  dhlabid : Int
  db : DB
  log : List (MetadataTuple × String)
  completed : List Int
deriving Repr, DecidableEq

/-- The `fulltext_dict` of main.py lines 266-286, minus the raw text:
exactly the metadata tuple passed to `_write_to_local_database`. -/
def mkMetadataTuple (item : DomainJob) (id : Int) (fm : FulltextMetadata) : MetadataTuple :=
  { dhlabid := id, hash := fm.hash, title := item.title, domain := item.domain,
    responsible_editor := item.responsible_editor, place := item.place,
    county := item.county, record_id := fm.record_id, warcpath := fm.warcpath,
    timestamp := fm.timestamp, uri := fm.uri }

/-- One iteration of the inner `for full_text in ...` loop (main.py lines
261-301): jsonlines append (line 288), tokenization (line 292), the three
row-store commits (line 299), `dhlabid_value += 1` (line 301).  Returns the
state at exit together with `true` when the iteration completed, `false`
when it raised (the state then reflects everything already durably done
before the raise, since a Python exception rolls nothing back). -/
def processEmit (tokenize : String → List String) (item : DomainJob) (st : RunState)
    (e : EmitJob) : RunState × Bool :=
  match e.outcome with
  | .fetchTextsRaise => (st, false)
  | .logRaise => (st, false)
  | .metaInsertRaise =>
    ({ st with log := st.log ++ [(mkMetadataTuple item st.dhlabid e.fm, e.full_text)] }, false)
  | .urnInsertRaise =>
    let m := mkMetadataTuple item st.dhlabid e.fm
    ({ st with log := st.log ++ [(m, e.full_text)], db := writeCommit1 st.db m }, false)
  | .ftInsertRaise =>
    let m := mkMetadataTuple item st.dhlabid e.fm
    ({ st with
        log := st.log ++ [(m, e.full_text)],
        db := writeCommit2 (writeCommit1 st.db m) m }, false)
  | .ok =>
    let m := mkMetadataTuple item st.dhlabid e.fm
    let token_tuples : List FtRow :=
      (parseTokens tokenize e.full_text).map
        (fun t => (st.dhlabid, t.token, t.sequence_number, t.paragraph_number))
    ({ st with
        log := st.log ++ [(m, e.full_text)],
        db := writeToLocalDatabase st.db token_tuples m,
        dhlabid := st.dhlabid + 1,
        completed := st.completed ++ [st.dhlabid] }, true)

/-- The nested record loops of one domain (main.py lines 258-301), run
until the first raise: an exception from any record iteration propagates
past the remaining records straight to the domain-level handler. -/
def processEmits (tokenize : String → List String) (item : DomainJob) :
    RunState → List EmitJob → RunState × Bool
  | st, [] => (st, true)
  | st, e :: es =>
    let r := processEmit tokenize item st e
    if r.2 = true then processEmits tokenize item r.1 es else (r.1, false)

/-- One iteration of the domain loop with its `try ... except Exception:
continue` (main.py lines 244-304): the responsible-editor check (line 247),
the metadata fetch (line 249), the record loops; any raise is caught, the
domain and error printed, and the loop continues with the next domain. -/
def processDomain (tokenize : String → List String) (st : RunState) (item : DomainJob) :
    RunState :=
  if item.responsible_editor = false then st
  else if item.fetchOk = false then st
  else (processEmits tokenize item st item.emits).1

/-- The whole domain loop of `_main` over the publications list. -/
def processRun (tokenize : String → List String) (st : RunState) (jobs : List DomainJob) :
    RunState :=
  jobs.foldl (processDomain tokenize) st

/-- The initial run state (main.py lines 225-233): `dhlabid_value =
starting_value` when allocation is enabled, `1` when disabled; fresh empty
row store, empty log. -/
def initState (status : DHlabIdStatus) : RunState :=
  { dhlabid := if status.is_disabled then 1 else status.starting_value,
    db := dbEmpty, log := [], completed := [] }

/- ===== Arithmetic range helpers ===== -/

/-- The list `[s, s+1, ..., s+n-1]` of integers. -/
def intRange (s : Int) : Nat → List Int
  | 0 => []
  | n + 1 => s :: intRange (s + 1) n

/-- The list `[s, s+1, ..., s+n-1]` of naturals. -/
def natRange (s : Nat) : Nat → List Nat
  | 0 => []
  | n + 1 => s :: natRange (s + 1) n

/-- Cross-table consistency of the row store: the `urn` column of `urns`
and the `dhlabid` column of `metadata` list the same identifiers in the
same order. -/
def dbConsistent (db : DB) : Prop := urnIds db = metaIds db

/- ===== Concrete inputs used by witnesses and counterexamples ===== -/

/-- Two source rows sharing the content hash `h` under distinct URIs, as
the `SELECT DISTINCT ON (fulltext_hash, target_uri)` query can return. -/
def c3rows : List WarcRow :=
  [⟨some "r1", "w1", some "h", "u1", "d1"⟩, ⟨some "r2", "w2", some "h", "u2", "d2"⟩]

/-- A source row whose content hash is NULL but whose record id is not. -/
def c3nullRow : WarcRow := ⟨some "r3", "w3", none, "u3", "d3"⟩

/-- A concrete metadata tuple for the row-store write example. -/
def c4meta : MetadataTuple :=
  ⟨7, some "h", "t", "d", true, "p", "c", "rid", "warc", "20200101", "uri"⟩

/-- A single concrete token row belonging to `c4meta`. -/
def c4tok : FtRow := ((7 : Int), "w", 0, 0)

/-- Concrete fulltext metadata for orchestrator examples. -/
def c5fm : FulltextMetadata := ⟨"rid", "warc", some "h", "uri", "20200101"⟩

/-- A domain whose first record fails at the row-store insert (after its
log entry is written) and whose second record would succeed. -/
def c5item : DomainJob :=
  ⟨"avis.no", "t", true, "p", "c", true,
    [⟨c5fm, "x y", .metaInsertRaise⟩, ⟨c5fm, "z", .ok⟩]⟩

/-- A domain used to witness the amended C5 statement. -/
def w5item : DomainJob := ⟨"w5.no", "t", true, "p", "c", true, []⟩

/-- A record emission failing at the token-table insert. -/
def w5e : EmitJob := ⟨c5fm, "q", .ftInsertRaise⟩

/-- Concrete fulltext metadata for the disabled-allocation example. -/
def c7fm : FulltextMetadata := ⟨"rid7", "w7", some "h7", "u7", "20200101"⟩

/-- A domain emitting two records successfully. -/
def c7item : DomainJob :=
  ⟨"c.no", "t", true, "p", "c", true, [⟨c7fm, "", .ok⟩, ⟨c7fm, "", .ok⟩]⟩

/-- Concrete fulltext metadata for the rename example. -/
def c9fm : FulltextMetadata := ⟨"rid9", "w9", some "h9", "u9", "20200101"⟩

/-- A domain whose single record emits successfully. -/
def c9item1 : DomainJob := ⟨"a.no", "t", true, "p", "c", true, [⟨c9fm, "", .ok⟩]⟩

/-- A domain whose single record fails at the `urns` insert, leaving a
metadata row whose identifier never reaches the `urns` table. -/
def c9item2 : DomainJob :=
  ⟨"b.no", "t", true, "p", "c", true, [⟨c9fm, "", .urnInsertRaise⟩]⟩

/-- A fully successful single-record domain, for the amended C9 witness. -/
def w9item : DomainJob := ⟨"w9.no", "t", true, "p", "c", true, [⟨c9fm, "aa bb", .ok⟩]⟩

/-- Concrete fulltext metadata for the isolation witness. -/
def w2fm : FulltextMetadata := ⟨"r", "w", some "h", "u", "20240101"⟩

/-- A domain that processes one record successfully. -/
def w2ok : DomainJob := ⟨"ok.no", "t", true, "p", "c", true, [⟨w2fm, "x", .ok⟩]⟩

/-- A domain whose metadata fetch raises. -/
def w2bad : DomainJob := ⟨"bad.no", "t", true, "p", "c", false, []⟩

/- ===== Helper lemmas: ranges ===== -/

lemma intRange_add : ∀ (n : Nat) (s : Int) (k : Nat),
    intRange s (n + k) = intRange s n ++ intRange (s + n) k := by
  intro n
  induction n with
  | zero => intro s k; simp [intRange]
  | succ n ih =>
    intro s k
    have h1 : n + 1 + k = (n + k) + 1 := by omega
    rw [h1]
    simp only [intRange, List.cons_append]
    rw [ih (s + 1) k]
    have h2 : s + 1 + (n : Int) = s + ((n : Int) + 1) := by ring
    simp [h2]

lemma length_intRange : ∀ (n : Nat) (s : Int), (intRange s n).length = n := by
  intro n
  induction n with
  | zero => intro s; simp [intRange]
  | succ n ih => intro s; simp [intRange, ih]

lemma mem_intRange : ∀ (n : Nat) (s x : Int), x ∈ intRange s n ↔ s ≤ x ∧ x < s + n := by
  intro n
  induction n with
  | zero => intro s x; simp [intRange]
  | succ n ih =>
    intro s x
    simp only [intRange, List.mem_cons, ih]
    constructor
    · rintro (h | ⟨h1, h2⟩) <;> [skip; skip] <;> push_cast <;> omega
    · intro ⟨h1, h2⟩
      by_cases hx : x = s
      · exact Or.inl hx
      · refine Or.inr ⟨by omega, ?_⟩
        push_cast at h2 ⊢
        omega

lemma nodup_intRange : ∀ (n : Nat) (s : Int), (intRange s n).Nodup := by
  intro n
  induction n with
  | zero => intro s; simp [intRange]
  | succ n ih =>
    intro s
    simp only [intRange, List.nodup_cons]
    refine ⟨fun h => ?_, ih (s + 1)⟩
    rw [mem_intRange] at h
    omega

lemma natRange_add : ∀ (n : Nat) (s k : Nat),
    natRange s (n + k) = natRange s n ++ natRange (s + n) k := by
  intro n
  induction n with
  | zero => intro s k; simp [natRange]
  | succ n ih =>
    intro s k
    have h1 : n + 1 + k = (n + k) + 1 := by omega
    rw [h1]
    simp only [natRange, List.cons_append]
    rw [ih (s + 1) k]
    have h2 : s + 1 + n = s + (n + 1) := by omega
    simp [h2]

lemma mem_natRange : ∀ (n : Nat) (s x : Nat), x ∈ natRange s n ↔ s ≤ x ∧ x < s + n := by
  intro n
  induction n with
  | zero => intro s x; simp [natRange]
  | succ n ih =>
    intro s x
    simp only [natRange, List.mem_cons, ih]
    omega

lemma pairwise_lt_natRange : ∀ (n s : Nat), (natRange s n).Pairwise (· < ·) := by
  intro n
  induction n with
  | zero => intro s; simp [natRange]
  | succ n ih =>
    intro s
    simp only [natRange, List.pairwise_cons]
    refine ⟨fun x hx => ?_, ih (s + 1)⟩
    rw [mem_natRange] at hx
    omega

lemma natRange_snoc : ∀ (n s : Nat), natRange s (n + 1) = natRange s n ++ [s + n] := by
  intro n
  induction n with
  | zero => intro s; simp [natRange]
  | succ n ih =>
    intro s
    show s :: natRange (s + 1) (n + 1) = (s :: natRange (s + 1) n) ++ [s + (n + 1)]
    rw [ih (s + 1)]
    have h : s + 1 + n = s + (n + 1) := by omega
    simp [h]

lemma natRange_eq_range : ∀ (n : Nat), natRange 0 n = List.range n := by
  intro n
  induction n with
  | zero => rfl
  | succ n ih =>
    rw [natRange_snoc, ih]
    simp [List.range_succ]

lemma pairwise_le_replicate (n a : Nat) : (List.replicate n a).Pairwise (· ≤ ·) := by
  induction n with
  | zero => simp
  | succ n ih =>
    simp only [List.replicate_succ, List.pairwise_cons]
    refine ⟨fun b hb => ?_, ih⟩
    rw [List.mem_replicate] at hb
    omega

/- ===== Helper lemmas: tokenizer adapter ===== -/

lemma paraTokens_length (para : Nat) : ∀ (ts : List String) (seq : Nat),
    (paraTokens para seq ts).length = ts.length := by
  intro ts
  induction ts with
  | nil => intro seq; rfl
  | cons t ts ih => intro seq; simp [paraTokens, ih]

lemma paraTokens_map_seq (para : Nat) : ∀ (ts : List String) (seq : Nat),
    (paraTokens para seq ts).map (fun t => t.sequence_number) = natRange seq ts.length := by
  intro ts
  induction ts with
  | nil => intro seq; rfl
  | cons t ts ih => intro seq; simp [paraTokens, natRange, ih]

lemma paraTokens_map_para (para : Nat) : ∀ (ts : List String) (seq : Nat),
    (paraTokens para seq ts).map (fun t => t.paragraph_number) =
      List.replicate ts.length para := by
  intro ts
  induction ts with
  | nil => intro seq; rfl
  | cons t ts ih => intro seq; simp [paraTokens, List.replicate_succ, ih]

lemma parseTokensGo_length (tokenize : String → List String) :
    ∀ (ps : List String) (para seq : Nat),
    (parseTokensGo tokenize para seq ps).length =
      ((ps.map (fun p => (tokenize p).length)).sum) := by
  intro ps
  induction ps with
  | nil => intro para seq; rfl
  | cons p ps ih =>
    intro para seq
    simp [parseTokensGo, paraTokens_length, ih]

lemma parseTokensGo_map_seq (tokenize : String → List String) :
    ∀ (ps : List String) (para seq : Nat),
    (parseTokensGo tokenize para seq ps).map (fun t => t.sequence_number) =
      natRange seq ((ps.map (fun p => (tokenize p).length)).sum) := by
  intro ps
  induction ps with
  | nil => intro para seq; rfl
  | cons p ps ih =>
    intro para seq
    simp only [parseTokensGo, List.map_append, List.map_cons, List.sum_cons]
    rw [paraTokens_map_seq, ih, natRange_add]

lemma paraTokens_para_eq (para : Nat) : ∀ (ts : List String) (seq : Nat)
    (t : TokenParseResult), t ∈ paraTokens para seq ts → t.paragraph_number = para := by
  intro ts
  induction ts with
  | nil => intro seq t ht; simp [paraTokens] at ht
  | cons x ts ih =>
    intro seq t ht
    simp only [paraTokens, List.mem_cons] at ht
    rcases ht with ht | ht
    · rw [ht]
    · exact ih (seq + 1) t ht

lemma parseTokensGo_para_ge (tokenize : String → List String) :
    ∀ (ps : List String) (para seq : Nat) (t : TokenParseResult),
    t ∈ parseTokensGo tokenize para seq ps → para ≤ t.paragraph_number := by
  intro ps
  induction ps with
  | nil => intro para seq t ht; simp [parseTokensGo] at ht
  | cons p ps ih =>
    intro para seq t ht
    simp only [parseTokensGo, List.mem_append] at ht
    rcases ht with ht | ht
    · rw [paraTokens_para_eq para (tokenize p) seq t ht]
    · have := ih (para + 1) (seq + (tokenize p).length) t ht
      omega

lemma parseTokensGo_para_pairwise (tokenize : String → List String) :
    ∀ (ps : List String) (para seq : Nat),
    ((parseTokensGo tokenize para seq ps).map (fun t => t.paragraph_number)).Pairwise
      (· ≤ ·) := by
  intro ps
  induction ps with
  | nil => intro para seq; simp [parseTokensGo]
  | cons p ps ih =>
    intro para seq
    simp only [parseTokensGo, List.map_append]
    rw [List.pairwise_append]
    refine ⟨by rw [paraTokens_map_para]; exact pairwise_le_replicate _ _, ih (para + 1) _, ?_⟩
    intro a ha b hb
    rw [paraTokens_map_para, List.mem_replicate] at ha
    rcases List.mem_map.mp hb with ⟨t, ht, rfl⟩
    have := parseTokensGo_para_ge tokenize ps (para + 1) (seq + (tokenize p).length) t ht
    omega

/- ===== Helper lemmas: deduplicator ===== -/

lemma dedupStep_nodup (acc : List String) (x : String) (h : acc.Nodup) :
    (dedupStep acc x).Nodup := by
  unfold dedupStep
  by_cases h1 : x = "" <;> by_cases h2 : x ∈ acc <;>
    simp [h1, h2, List.nodup_append, h]

lemma dedupStep_mem (acc : List String) (x y : String) :
    y ∈ dedupStep acc x ↔ y ∈ acc ∨ (y = x ∧ ¬ (y = "")) := by
  unfold dedupStep
  by_cases h1 : x = ""
  · subst h1
    simp only [not_true]
    constructor
    · intro h; exact Or.inl (by simpa using h)
    · rintro (h | ⟨rfl, h2⟩)
      · simpa using h
      · exact absurd rfl h2
  · by_cases h2 : x ∈ acc
    · simp only [h1, h2, not_false_iff, not_true]
      constructor
      · intro h; exact Or.inl (by simpa using h)
      · rintro (h | ⟨rfl, _⟩)
        · simpa using h
        · simpa [h1] using h2
    · simp only [h1, h2, not_false_iff, if_true, List.mem_append, List.mem_singleton]
      constructor
      · rintro (h | rfl)
        · exact Or.inl h
        · exact Or.inr ⟨rfl, h1⟩
      · rintro (h | ⟨rfl, _⟩)
        · exact Or.inl h
        · exact Or.inr rfl

lemma foldl_dedupStep_nodup : ∀ (l acc : List String), acc.Nodup →
    (l.foldl dedupStep acc).Nodup := by
  intro l
  induction l with
  | nil => intro acc h; exact h
  | cons x l ih => intro acc h; exact ih _ (dedupStep_nodup acc x h)

lemma foldl_dedupStep_mem : ∀ (l acc : List String) (y : String),
    y ∈ l.foldl dedupStep acc ↔ y ∈ acc ∨ (y ∈ l ∧ ¬ (y = "")) := by
  intro l
  induction l with
  | nil => intro acc y; simp
  | cons x l ih =>
    intro acc y
    rw [List.foldl_cons, ih, dedupStep_mem]
    simp only [List.mem_cons]
    tauto

lemma foldl_dedupStep_flatten : ∀ (L : List (List String)) (acc : List String),
    (L.flatten).foldl dedupStep acc = L.foldl (fun a l => l.foldl dedupStep a) acc := by
  intro L
  induction L with
  | nil => intro acc; rfl
  | cons l ls ih =>
    intro acc
    simp only [List.flatten_cons, List.foldl_append, List.foldl_cons]
    exact ih _

lemma dedupeTextsSpec_eq_foldl (l : List String) : dedupeTextsSpec l = l.foldl dedupStep [] := by
  unfold dedupeTextsSpec
  congr 1
  funext acc x
  unfold dedupStep
  by_cases h1 : x = "" <;> by_cases h2 : x ∈ acc <;> simp [h1, h2]

/- ===== C8 ===== -/

/-- C8: `_remove_duplicates_and_empty_strings` implements the spec's
`dedupe_texts`: over the flattened sequence of row items it keeps exactly
the first occurrence of each distinct non-empty string, in source order —
its output has no duplicates and no empty strings, a string is in the
output iff it is a non-empty input item, and the spec's worked example
(rows `["", "a", "a", "b", ""]`, one item each) yields `["a", "b"]`. -/
theorem C8_dedupe_texts (results : List (List String)) :
    removeDuplicatesAndEmptyStrings results = dedupeTextsSpec results.flatten ∧
    (removeDuplicatesAndEmptyStrings results).Nodup ∧
    ¬ ("" ∈ removeDuplicatesAndEmptyStrings results) ∧
    (∀ y, y ∈ removeDuplicatesAndEmptyStrings results ↔
      (y ∈ results.flatten ∧ ¬ (y = ""))) ∧
    removeDuplicatesAndEmptyStrings [[""], ["a"], ["a"], ["b"], [""]] = ["a", "b"] := by
  have key : removeDuplicatesAndEmptyStrings results =
      (results.flatten).foldl dedupStep [] := by
    rw [removeDuplicatesAndEmptyStrings, foldl_dedupStep_flatten]
  refine ⟨?_, ?_, ?_, ?_, by decide⟩
  · rw [key, dedupeTextsSpec_eq_foldl]
  · rw [key]; exact foldl_dedupStep_nodup _ _ List.nodup_nil
  · rw [key, foldl_dedupStep_mem]; simp
  · intro y; rw [key, foldl_dedupStep_mem]; simp

/- ===== C6 ===== -/

/-- C6: `_parse_tokens` splits on newlines into 0-based paragraphs; the
global sequence numbers are strictly increasing across the whole text (not
resetting at paragraph boundaries) and the paragraph numbers are
non-decreasing, changing only at newline boundaries (every token of the
same paragraph carries that paragraph's index); an empty paragraph
contributes no tokens but still advances the paragraph counter, so
`"ab cd\n\nef"` under a word tokenizer yields paragraph numbers `[0,0,2]`
and sequence numbers `[0,1,2]`. -/
theorem C6_tokenization (tokenize : String → List String) (text : String) :
    ((parseTokens tokenize text).map (fun t => t.sequence_number)).Pairwise (· < ·) ∧
    ((parseTokens tokenize text).map (fun t => t.paragraph_number)).Pairwise (· ≤ ·) ∧
    parseTokens wordTokenize "ab cd\n\nef" =
      [⟨"ab", 0, 0⟩, ⟨"cd", 1, 0⟩, ⟨"ef", 2, 2⟩] := by
  refine ⟨?_, ?_, by decide⟩
  · rw [parseTokens, parseTokensGo_map_seq]
    exact pairwise_lt_natRange _ _
  · rw [parseTokens]
    exact parseTokensGo_para_pairwise tokenize _ _ _

/- ===== C10 ===== -/

/-- C10: the sequence numbers of `_parse_tokens` are exactly the
consecutive integers `0, 1, ..., N-1` in list order, where `N` is the
total number of tokens the external tokenizer produces over all
paragraphs — no gaps, always starting at 0. -/
theorem C10_sequence_numbers_are_range (tokenize : String → List String) (text : String) :
    (parseTokens tokenize text).map (fun t => t.sequence_number) =
      List.range (parseTokens tokenize text).length ∧
    (parseTokens tokenize text).length =
      ((pySplitLines text).map (fun p => (tokenize p).length)).sum := by
  have hlen := parseTokensGo_length tokenize (pySplitLines text) 0 0
  constructor
  · rw [parseTokens, parseTokensGo_map_seq, parseTokensGo_length, natRange_eq_range]
  · rw [parseTokens]
    exact hlen

/- ===== C3 ===== -/

/-- C3: the claim is right and the code has a bug.  The filter of
`_fetch_fulltext_hash_and_metadata` (main.py lines 186-187) tests
`result[0]` — the record id — both for the None-check and for membership
among the hashes of already kept rows, where the content hash is
`result[2]`.  Consequently two rows sharing content hash `h` are BOTH
returned (the claim requires one entry per distinct hash), and a row with
a NULL content hash but non-NULL record id is kept (the claim requires it
dropped). -/
theorem C3_hash_dedup_broken :
    ((fetchFulltextHashAndMetadata (fun d => d) c3rows).map (fun m => m.hash) =
      [some "h", some "h"]) ∧
    ((fetchFulltextHashAndMetadata (fun d => d) [c3nullRow]).map (fun m => m.hash) =
      [none]) := by
  decide

/- ===== Helper lemmas: orchestrator ===== -/

lemma processEmit_spec (tokenize : String → List String) (item : DomainJob)
    (st : RunState) (e : EmitJob) :
    ((processEmit tokenize item st e).2 = false ∧
      (processEmit tokenize item st e).1.dhlabid = st.dhlabid ∧
      (processEmit tokenize item st e).1.completed = st.completed) ∨
    ((processEmit tokenize item st e).2 = true ∧
      (processEmit tokenize item st e).1.dhlabid = st.dhlabid + 1 ∧
      (processEmit tokenize item st e).1.completed = st.completed ++ [st.dhlabid]) := by
  rcases e with ⟨fm, ftxt, oc⟩
  cases oc <;> simp [processEmit]

lemma processEmits_spec (tokenize : String → List String) (item : DomainJob) :
    ∀ (es : List EmitJob) (st : RunState), ∃ n : Nat,
      (processEmits tokenize item st es).1.dhlabid = st.dhlabid + n ∧
      (processEmits tokenize item st es).1.completed =
        st.completed ++ intRange st.dhlabid n := by
  intro es
  induction es with
  | nil => intro st; exact ⟨0, by simp [processEmits, intRange]⟩
  | cons e es ih =>
    intro st
    rcases processEmit_spec tokenize item st e with ⟨h2, hd, hc⟩ | ⟨h2, hd, hc⟩
    · refine ⟨0, ?_, ?_⟩ <;> simp [processEmits, h2, hd, hc, intRange]
    · rcases ih (processEmit tokenize item st e).1 with ⟨k, hk1, hk2⟩
      refine ⟨k + 1, ?_, ?_⟩
      · simp only [processEmits, h2, if_true]
        rw [hk1, hd]
        push_cast
        ring
      · simp only [processEmits, h2, if_true]
        rw [hk2, hc, hd]
        show _ = st.completed ++ (st.dhlabid :: intRange (st.dhlabid + 1) k)
        rw [List.append_assoc]
        rfl

lemma processDomain_spec (tokenize : String → List String) (st : RunState)
    (item : DomainJob) :
    ∃ n : Nat, (processDomain tokenize st item).dhlabid = st.dhlabid + n ∧
      (processDomain tokenize st item).completed = st.completed ++ intRange st.dhlabid n := by
  unfold processDomain
  by_cases h1 : item.responsible_editor = false
  · exact ⟨0, by simp [h1, intRange]⟩
  · by_cases h2 : item.fetchOk = false
    · exact ⟨0, by simp [h1, h2, intRange]⟩
    · simp only [h1, h2, if_false]
      exact processEmits_spec tokenize item item.emits st

lemma processRun_spec (tokenize : String → List String) :
    ∀ (jobs : List DomainJob) (st : RunState),
    ∃ n : Nat, (processRun tokenize st jobs).dhlabid = st.dhlabid + n ∧
      (processRun tokenize st jobs).completed = st.completed ++ intRange st.dhlabid n := by
  intro jobs
  induction jobs with
  | nil => intro st; exact ⟨0, by simp [processRun, intRange]⟩
  | cons j js ih =>
    intro st
    rcases processDomain_spec tokenize st j with ⟨m, hm1, hm2⟩
    rcases ih (processDomain tokenize st j) with ⟨k, hk1, hk2⟩
    have hrun : processRun tokenize st (j :: js) =
        processRun tokenize (processDomain tokenize st j) js := by
      simp [processRun]
    refine ⟨m + k, ?_, ?_⟩
    · rw [hrun, hk1, hm1]
      push_cast
      ring
    · rw [hrun, hk2, hm2, hm1, List.append_assoc, intRange_add m st.dhlabid k]

lemma processEmit_consistent (tokenize : String → List String) (item : DomainJob)
    (st : RunState) (e : EmitJob)
    (h : ¬ (e.outcome = EmitOutcome.urnInsertRaise))
    (hst : dbConsistent st.db) :
    dbConsistent (processEmit tokenize item st e).1.db := by
  rcases e with ⟨fm, ftxt, oc⟩
  cases oc <;>
    simp_all [processEmit, dbConsistent, urnIds, metaIds, writeCommit1, writeCommit2,
      writeCommit3, writeToLocalDatabase, mkMetadataTuple]

lemma processEmits_consistent (tokenize : String → List String) (item : DomainJob) :
    ∀ (es : List EmitJob) (st : RunState),
    (∀ e ∈ es, ¬ (e.outcome = EmitOutcome.urnInsertRaise)) →
    dbConsistent st.db →
    dbConsistent (processEmits tokenize item st es).1.db := by
  intro es
  induction es with
  | nil => intro st _ hst; exact hst
  | cons e es ih =>
    intro st hall hst
    have hc := processEmit_consistent tokenize item st e (hall e (by simp)) hst
    rcases hb : (processEmit tokenize item st e).2 with hb0 | hb1
    · simpa [processEmits, hb] using hc
    · simp only [processEmits, hb, if_true]
      exact ih _ (fun x hx => hall x (List.mem_cons_of_mem e hx)) hc

lemma processDomain_consistent (tokenize : String → List String) (st : RunState)
    (item : DomainJob)
    (h : ∀ e ∈ item.emits, ¬ (e.outcome = EmitOutcome.urnInsertRaise))
    (hst : dbConsistent st.db) :
    dbConsistent (processDomain tokenize st item).db := by
  unfold processDomain
  by_cases h1 : item.responsible_editor = false
  · simpa [h1]
  · by_cases h2 : item.fetchOk = false
    · simpa [h1, h2]
    · simp only [h1, h2, if_false]
      exact processEmits_consistent tokenize item item.emits st h hst

lemma processRun_consistent (tokenize : String → List String) :
    ∀ (jobs : List DomainJob) (st : RunState),
    (∀ job ∈ jobs, ∀ e ∈ job.emits, ¬ (e.outcome = EmitOutcome.urnInsertRaise)) →
    dbConsistent st.db →
    dbConsistent (processRun tokenize st jobs).db := by
  intro jobs
  induction jobs with
  | nil => intro st _ hst; exact hst
  | cons j js ih =>
    intro st hall hst
    have hrun : processRun tokenize st (j :: js) =
        processRun tokenize (processDomain tokenize st j) js := by
      simp [processRun]
    rw [hrun]
    exact ih _ (fun x hx => hall x (List.mem_cons_of_mem j hx))
      (processDomain_consistent tokenize st j (hall j (by simp)) hst)

/- ===== C1 ===== -/

/-- C1: with identifier allocation enabled and starting value `S`, the
dhlabid counter starts at `S` and advances by exactly one per successfully
emitted record across the whole run, whatever the per-domain outcomes: the
identifiers of the successfully emitted records, in emission order, are
exactly `[S, S+1, ..., S+N-1]` (no repeats, no gaps), and the counter ends
at `S + N`.  Identifiers consumed by records of a domain that later fails
are never rolled back or reused: they occur exactly once in that list. -/
theorem C1_identifier_allocation (tokenize : String → List String) (S : Int)
    (jobs : List DomainJob) :
    ∃ N : Nat,
      (processRun tokenize (initState ⟨false, S⟩) jobs).completed = intRange S N ∧
      N = (processRun tokenize (initState ⟨false, S⟩) jobs).completed.length ∧
      (processRun tokenize (initState ⟨false, S⟩) jobs).dhlabid = S + N ∧
      (processRun tokenize (initState ⟨false, S⟩) jobs).completed.Nodup := by
  rcases processRun_spec tokenize jobs (initState ⟨false, S⟩) with ⟨n, h1, h2⟩
  have hS : (initState (⟨false, S⟩ : DHlabIdStatus)).dhlabid = S := rfl
  have hc : (initState (⟨false, S⟩ : DHlabIdStatus)).completed = [] := rfl
  rw [hS] at h1 h2
  rw [hc, List.nil_append] at h2
  refine ⟨n, h2, ?_, h1, ?_⟩
  · rw [h2, length_intRange]
  · rw [h2]
    exact nodup_intRange n S

/- ===== C2 ===== -/

/-- C2: a domain that fails before emitting anything — its responsible
editor flag false (or missing, which raises the same way), or its metadata
fetch raising — is caught at the orchestrator's per-domain boundary: the
run over `jobs1 ++ [item] ++ jobs2` equals the run with the failed domain
removed, so every subsequent domain is still processed, nothing is
written for the failed domain and the identifier counter does not advance
for it; and for any domain whatsoever, the run continues with the
remaining domains after the per-domain handler, never aborting. -/
theorem C2_domain_failure_isolated (tokenize : String → List String) (st : RunState)
    (jobs1 jobs2 : List DomainJob) (item : DomainJob)
    (h : item.responsible_editor = false ∨ item.fetchOk = false) :
    processRun tokenize st (jobs1 ++ item :: jobs2) = processRun tokenize st (jobs1 ++ jobs2) ∧
    processRun tokenize st (item :: jobs2) =
      processRun tokenize (processDomain tokenize st item) jobs2 := by
  have hnoop : ∀ s : RunState, processDomain tokenize s item = s := by
    intro s
    unfold processDomain
    rcases h with h | h
    · simp [h]
    · by_cases h1 : item.responsible_editor = false
      · simp [h1]
      · simp [h1, h]
  constructor
  · simp only [processRun, List.foldl_append, List.foldl_cons]
    rw [hnoop]
  · simp only [processRun, List.foldl_cons]

/-- Witness for C2 at a concrete run: a fetch-failing domain in front of a
succeeding one changes nothing, and the run proceeds to the next domain. -/
theorem C2_witness :
    processRun wordTokenize (initState ⟨false, 0⟩) ([] ++ w2bad :: [w2ok]) =
      processRun wordTokenize (initState ⟨false, 0⟩) ([] ++ [w2ok]) ∧
    processRun wordTokenize (initState ⟨false, 0⟩) (w2bad :: [w2ok]) =
      processRun wordTokenize (processDomain wordTokenize (initState ⟨false, 0⟩) w2bad)
        [w2ok] :=
  C2_domain_failure_isolated wordTokenize (initState ⟨false, 0⟩) [] [w2ok] w2bad
    (Or.inr rfl)

/- ===== C4 ===== -/

/-- C4 counterexample: `_write_to_local_database` is NOT one local atomic
unit.  The state reached after its first `dbcon.commit()` (main.py line
135) is a durably committed state of the row store in which the metadata
row is visible while the record's token row is not — refuting "either the
metadata row and all its token rows are visible, or none of them is". -/
theorem C4_counterexample :
    writeCommit1 dbEmpty c4meta ∈ writeCommittedStates dbEmpty [c4tok] c4meta ∧
    c4meta ∈ (writeCommit1 dbEmpty c4meta).metadata ∧
    c4tok ∈ [c4tok] ∧
    ¬ (c4tok ∈ (writeCommit1 dbEmpty c4meta).ft) := by
  decide

/-- C4 amended: `_write_to_local_database` performs three separately
committed transactions — the metadata insert, the urns insert, the token
inserts, in that order — so atomicity holds per statement, not per record:
when the call completes, the metadata row, the urn mapping and all token
rows are visible; the committed states during the call are exactly the
four listed, and in particular after the first commit the metadata row is
visible with no token row yet. -/
theorem C4_write_not_atomic (db : DB) (token_tuples : List FtRow) (m : MetadataTuple) :
    (writeToLocalDatabase db token_tuples m).metadata = db.metadata ++ [m] ∧
    (writeToLocalDatabase db token_tuples m).ft = db.ft ++ token_tuples ∧
    (writeToLocalDatabase db token_tuples m).urns =
      db.urns ++ [(m.dhlabid, m.warcpath ++ "#" ++ m.record_id)] ∧
    (writeCommit1 db m).metadata = db.metadata ++ [m] ∧
    (writeCommit1 db m).ft = db.ft ∧
    writeCommittedStates db token_tuples m =
      [db, writeCommit1 db m, writeCommit2 (writeCommit1 db m) m,
        writeToLocalDatabase db token_tuples m] :=
  ⟨rfl, rfl, rfl, rfl, rfl, rfl⟩

/- ===== C5 ===== -/

/-- C5 counterexample: a row-store insert failure is NOT handled as a
per-record failure.  In a domain whose first record's row-store insert
raises (after its log entry was durably written) and whose second record
would succeed, the exception propagates to the domain-level handler: the
sibling record is never processed — zero records complete, and the log
holds only the failed record's entry (id 10). -/
theorem C5_counterexample :
    (processRun wordTokenize (initState ⟨false, 10⟩) [c5item]).completed = [] ∧
    ((processRun wordTokenize (initState ⟨false, 10⟩) [c5item]).log.map
      (fun p => p.1.dhlabid)) = [10] ∧
    (c5item.emits.map (fun e => e.outcome)) = [.metaInsertRaise, .ok] := by
  decide

/-- C5 amended: a row-store insert failure for one record is caught at the
DOMAIN boundary, not the record boundary: the remaining sibling records of
the same domain are skipped (the record loop stops at the failing record,
keeping whatever was durably written, including its log entry), and the
run then continues with the next domain. -/
theorem C5_sink_failure_aborts_domain (tokenize : String → List String)
    (item : DomainJob) (st : RunState) (e : EmitJob) (es : List EmitJob)
    (jobs2 : List DomainJob)
    (h : e.outcome = EmitOutcome.metaInsertRaise ∨
      e.outcome = EmitOutcome.urnInsertRaise ∨ e.outcome = EmitOutcome.ftInsertRaise) :
    processEmits tokenize item st (e :: es) = ((processEmit tokenize item st e).1, false) ∧
    processRun tokenize st (item :: jobs2) =
      processRun tokenize (processDomain tokenize st item) jobs2 := by
  constructor
  · have h2 : (processEmit tokenize item st e).2 = false := by
      rcases h with h | h | h <;> simp [processEmit, h]
    simp [processEmits, h2]
  · simp only [processRun, List.foldl_cons]

/-- Witness for the amended C5 statement at a concrete failing record. -/
theorem C5_witness :
    processEmits wordTokenize w5item (initState ⟨false, 3⟩) (w5e :: []) =
      ((processEmit wordTokenize w5item (initState ⟨false, 3⟩) w5e).1, false) ∧
    processRun wordTokenize (initState ⟨false, 3⟩) (w5item :: []) =
      processRun wordTokenize
        (processDomain wordTokenize (initState ⟨false, 3⟩) w5item) [] :=
  C5_sink_failure_aborts_domain wordTokenize w5item (initState ⟨false, 3⟩) w5e [] []
    (Or.inr (Or.inr rfl))

/- ===== C7 ===== -/

/-- C7 counterexample: with identifier allocation disabled, the records of
a run do NOT all carry one constant identifier: `dhlabid_value += 1`
(main.py line 301) runs regardless of the disable flag, so two
successfully emitted records carry identifiers 1 and 2. -/
theorem C7_counterexample :
    (processRun wordTokenize (initState ⟨true, 0⟩) [c7item]).completed = [1, 2] ∧
    metaIds (processRun wordTokenize (initState ⟨true, 0⟩) [c7item]).db = [1, 2] := by
  decide

/-- C7 amended: when identifier allocation is disabled the counter starts
at the default 1 and is still incremented by exactly one per successfully
emitted record — a disabled run is identical to an enabled run with
starting value 1, its emitted identifiers being `[1, 2, ..., N]`, not a
constant. -/
theorem C7_disabled_counter_increments (tokenize : String → List String) (v : Int)
    (jobs : List DomainJob) :
    processRun tokenize (initState ⟨true, v⟩) jobs =
      processRun tokenize (initState ⟨false, 1⟩) jobs ∧
    ∃ N : Nat, (processRun tokenize (initState ⟨true, v⟩) jobs).completed = intRange 1 N := by
  have h : (initState (⟨true, v⟩ : DHlabIdStatus)) = initState ⟨false, 1⟩ := rfl
  refine ⟨by rw [h], ?_⟩
  rcases processRun_spec tokenize jobs (initState ⟨true, v⟩) with ⟨n, _, h2⟩
  exact ⟨n, by simpa using h2⟩

/- ===== C9 ===== -/

/-- C9 counterexample: the finalized filename does NOT always encode the
true minimum and maximum identifier of the metadata table.  `_rename_db`
reads `min(urn), max(urn)` from the `urns` table; after a run in which a
record's `urns` insert failed (after its metadata insert committed), the
metadata table holds identifiers 5 and 6 while the filename encodes
(5, 5). -/
theorem C9_counterexample :
    renameDb (processRun wordTokenize (initState ⟨false, 5⟩) [c9item1, c9item2]).db =
      (some 5, some 5) ∧
    metaIds (processRun wordTokenize (initState ⟨false, 5⟩) [c9item1, c9item2]).db =
      [5, 6] := by
  decide

/-- C9 amended: the finalized filename encodes the minimum and maximum of
the `urns` (identifier-to-origin) table; in every run in which no record
fails at the `urns` insert, the `urns` and `metadata` tables list the same
identifiers, so the filename then encodes the true minimum and maximum
identifier of the metadata table as claimed. -/
theorem C9_rename_uses_urns_table (tokenize : String → List String) (S : Int)
    (jobs : List DomainJob)
    (h : ∀ job ∈ jobs, ∀ e ∈ job.emits, ¬ (e.outcome = EmitOutcome.urnInsertRaise)) :
    renameDb (processRun tokenize (initState ⟨false, S⟩) jobs).db =
      (sqlMin (metaIds (processRun tokenize (initState ⟨false, S⟩) jobs).db),
        sqlMax (metaIds (processRun tokenize (initState ⟨false, S⟩) jobs).db)) := by
  have hc : dbConsistent (processRun tokenize (initState ⟨false, S⟩) jobs).db :=
    processRun_consistent tokenize jobs (initState ⟨false, S⟩) h rfl
  rw [renameDb, hc]

/-- Witness for the amended C9 statement at a concrete fully successful run. -/
theorem C9_witness :
    renameDb (processRun wordTokenize (initState ⟨false, 5⟩) [w9item]).db =
      (sqlMin (metaIds (processRun wordTokenize (initState ⟨false, 5⟩) [w9item]).db),
        sqlMax (metaIds (processRun wordTokenize (initState ⟨false, 5⟩) [w9item]).db)) :=
  C9_rename_uses_urns_table wordTokenize 5 [w9item] (by decide)
